import Mathlib

/-!
Verification development for the finance-app backend (hybrid RAG over
per-user transaction data).  The definitions below are a shallow embedding
of the Python services:

* `app/services/indexing_service.py` — deterministic transaction ids,
  CSV loading, payload construction, batched upsert;
* `app/services/embedding_service.py` — whole-batch embedding cache key;
* `app/services/rag_service.py` — query-size heuristic, dual filtered
  search with graceful degradation, Reciprocal Rank Fusion, context
  formatting and prompt assembly;
* `app/utils/csv_parser.py` — row parsing (date, amount, cashback).

External collaborators (vector store, embedding models, language model)
are passed in as explicit arguments: a search outcome is an `Except`
value, the language model is a function from messages to an answer.
Machine floats are modelled by `ℚ`; Python ints by `ℕ` (user ids are
non-negative database keys).
-/

/-! ## Basic byte/string utilities -/

/-- Truncation to a 32-bit word (`% 2^32`). -/
def w32 (x : ℕ) : ℕ := x % 4294967296

/-- Right rotation of a 32-bit word by `n` bits. -/
def rotr32 (n x : ℕ) : ℕ := w32 (x / 2 ^ n + x % 2 ^ n * 2 ^ (32 - n))

/-- Logical right shift. -/
def shr32 (n x : ℕ) : ℕ := x / 2 ^ n

/-- SHA-256 `Ch` function. -/
def sha256Ch (x y z : ℕ) : ℕ := (x &&& y) ^^^ ((x ^^^ 4294967295) &&& z)

/-- SHA-256 `Maj` function. -/
def sha256Maj (x y z : ℕ) : ℕ := (x &&& y) ^^^ (x &&& z) ^^^ (y &&& z)

/-- SHA-256 big sigma 0. -/
def bigSigma0 (x : ℕ) : ℕ := rotr32 2 x ^^^ rotr32 13 x ^^^ rotr32 22 x

/-- SHA-256 big sigma 1. -/
def bigSigma1 (x : ℕ) : ℕ := rotr32 6 x ^^^ rotr32 11 x ^^^ rotr32 25 x

/-- SHA-256 small sigma 0. -/
def smallSigma0 (x : ℕ) : ℕ := rotr32 7 x ^^^ rotr32 18 x ^^^ shr32 3 x

/-- SHA-256 small sigma 1. -/
def smallSigma1 (x : ℕ) : ℕ := rotr32 17 x ^^^ rotr32 19 x ^^^ shr32 10 x

/-- The 64 SHA-256 round constants of FIPS 180-4, written in decimal. -/
def sha256K : List ℕ :=
  [1116352408, 1899447441, 3049323471, 3921009573, 961987163,
   1508970993, 2453635748, 2870763221, 3624381080, 310598401,
   607225278, 1426881987, 1925078388, 2162078206, 2614888103,
   3248222580, 3835390401, 4022224774, 264347078, 604807628,
   770255983, 1249150122, 1555081692, 1996064986, 2554220882,
   2821834349, 2952996808, 3210313671, 3336571891, 3584528711,
   113926993, 338241895, 666307205, 773529912, 1294757372,
   1396182291, 1695183700, 1986661051, 2177026350, 2456956037,
   2730485921, 2820302411, 3259730800, 3345764771, 3516065817,
   3600352804, 4094571909, 275423344, 430227734, 506948616,
   659060556, 883997877, 958139571, 1322822218, 1537002063,
   1747873779, 1955562222, 2024104815, 2227730452, 2361852424,
   2428436474, 2756734187, 3204031479, 3329325298]

/-- SHA-256 working state: eight 32-bit words. -/
structure Sha256State where
  a : ℕ
  b : ℕ
  c : ℕ
  d : ℕ
  e : ℕ
  f : ℕ
  g : ℕ
  h : ℕ

/-- The eight initial hash words of FIPS 180-4, in decimal. -/
def sha256Init : Sha256State :=
  ⟨1779033703, 3144134277, 1013904242, 2773480762,
   1359893119, 2600822924, 528734635, 1541459225⟩

/-- Split a list into consecutive chunks of size `n` (`n > 0`). -/
def chunkList (n : ℕ) (l : List α) : List (List α) :=
  match n, l with
  | 0, _ => []
  | _ + 1, [] => []
  | m + 1, x :: xs => ((x :: xs).take (m + 1)) :: chunkList (m + 1) ((x :: xs).drop (m + 1))
termination_by l.length
decreasing_by
  simp [List.length_drop]
  omega

/-- Big-endian bytes of the 64-bit message length. -/
def lenBytes64 (n : ℕ) : List ℕ :=
  [n / 2 ^ 56 % 256, n / 2 ^ 48 % 256, n / 2 ^ 40 % 256, n / 2 ^ 32 % 256,
   n / 2 ^ 24 % 256, n / 2 ^ 16 % 256, n / 2 ^ 8 % 256, n % 256]

/-- SHA-256 message padding: append `0x80`, zeros, and the bit length. -/
def sha256Pad (msg : List ℕ) : List ℕ :=
  msg ++ 128 :: List.replicate ((119 - msg.length % 64) % 64) 0
      ++ lenBytes64 (8 * msg.length)

/-- Big-endian 32-bit words from a 64-byte block. -/
def wordsOfBytes (block : List ℕ) : List ℕ :=
  (chunkList 4 block).map fun bs =>
    bs.getD 0 0 * 2 ^ 24 + bs.getD 1 0 * 2 ^ 16 + bs.getD 2 0 * 2 ^ 8 + bs.getD 3 0

/-- Extend the 16 block words to the 64-entry message schedule. -/
def msgSchedule (ws : List ℕ) : List ℕ :=
  (List.range 48).foldl
    (fun acc _ =>
      acc ++ [w32 (smallSigma1 (acc.getD (acc.length - 2) 0) + acc.getD (acc.length - 7) 0
        + smallSigma0 (acc.getD (acc.length - 15) 0) + acc.getD (acc.length - 16) 0)])
    ws

/-- One SHA-256 compression round. -/
def sha256Round (st : Sha256State) (kw : ℕ × ℕ) : Sha256State :=
  let t1 := w32 (st.h + bigSigma1 st.e + sha256Ch st.e st.f st.g + kw.1 + kw.2)
  let t2 := w32 (bigSigma0 st.a + sha256Maj st.a st.b st.c)
  ⟨w32 (t1 + t2), st.a, st.b, st.c, w32 (st.d + t1), st.e, st.f, st.g⟩

/-- Process one 64-byte block. -/
def sha256Block (st : Sha256State) (block : List ℕ) : Sha256State :=
  let ws := msgSchedule (wordsOfBytes block)
  let s2 := (sha256K.zip ws).foldl sha256Round st
  ⟨w32 (st.a + s2.a), w32 (st.b + s2.b), w32 (st.c + s2.c), w32 (st.d + s2.d),
   w32 (st.e + s2.e), w32 (st.f + s2.f), w32 (st.g + s2.g), w32 (st.h + s2.h)⟩

/-- Big-endian bytes of one 32-bit word. -/
def wordBytes (w : ℕ) : List ℕ :=
  [w / 2 ^ 24 % 256, w / 2 ^ 16 % 256, w / 2 ^ 8 % 256, w % 256]

/-- SHA-256 digest (32 bytes) of a byte string; models `hashlib.sha256(...).digest()`. -/
def sha256Bytes (msg : List ℕ) : List ℕ :=
  let st := (chunkList 64 (sha256Pad msg)).foldl sha256Block sha256Init
  wordBytes st.a ++ wordBytes st.b ++ wordBytes st.c ++ wordBytes st.d
    ++ wordBytes st.e ++ wordBytes st.f ++ wordBytes st.g ++ wordBytes st.h

/-- UTF-8 bytes of one character; models `str.encode()` per code point. -/
def utf8Char (c : Char) : List ℕ :=
  let n := c.toNat
  if n < 128 then [n]
  else if n < 2048 then [192 + n / 64, 128 + n % 64]
  else if n < 65536 then [224 + n / 4096, 128 + n / 64 % 64, 128 + n % 64]
  else [240 + n / 262144, 128 + n / 4096 % 64, 128 + n / 64 % 64, 128 + n % 64]

/-- UTF-8 encoding of a string; models Python `str.encode()`. -/
def utf8Encode (s : String) : List ℕ := s.data.flatMap utf8Char

/-- Lowercase hex characters of a byte list; models `hexdigest()`. -/
def hexChars (bs : List ℕ) : List Char :=
  bs.flatMap fun b => [Nat.digitChar (b / 16), Nat.digitChar (b % 16)]

/-- `str(uuid.UUID(bytes=bs))` for a 16-byte list: lowercase hex in 8-4-4-4-12
grouping.  `uuid.UUID(bytes=...)` stores the bytes verbatim (no version bits
are set when no `version` argument is given). -/
def uuidOfBytes (bs : List ℕ) : String :=
  let hx := hexChars bs
  String.mk (hx.take 8 ++ '-' :: (hx.drop 8).take 4 ++ '-' :: (hx.drop 12).take 4
    ++ '-' :: (hx.drop 16).take 4 ++ '-' :: hx.drop 20)

/-- Little-endian base-10 digits with explicit fuel (structural
recursion; agrees with `Nat.digits 10` whenever `n ≤ fuel`). -/
def natDigitsAux : ℕ → ℕ → List ℕ
  | 0, _ => []
  | fuel + 1, n => if n = 0 then [] else n % 10 :: natDigitsAux fuel (n / 10)

/-- Little-endian base-10 digits of `n`. -/
def digitsOf (n : ℕ) : List ℕ := natDigitsAux n n

/-- Decimal string of a natural number; models Python `str(int)` for the
non-negative ints used as user ids. -/
def natToDecimal (n : ℕ) : String :=
  if n = 0 then "0" else String.mk (((digitsOf n).map Nat.digitChar).reverse)

/-! ## Python value formatting -/

/-- Fractional decimal digits of `r ∈ [0,1)`, most significant first,
with fuel bounding the expansion (Python float repr shows at most 17
significant digits). -/
def fracDigitsAux : ℕ → ℚ → List ℕ
  | 0, _ => []
  | fuel + 1, r =>
    if r = 0 then []
    else ⌊r * 10⌋.toNat :: fracDigitsAux fuel (r * 10 - ⌊r * 10⌋)

/-- Decimal rendering of a rational; models Python `repr(float)` /
f-string interpolation for the decimal-representable amounts produced by
the CSV parser (always at least one fractional digit, e.g. `500.0`). -/
def pyFloatStr (q : ℚ) : String :=
  let ip := ⌊|q|⌋.toNat
  let digs := fracDigitsAux 17 (|q| - ⌊|q|⌋)
  (if q < 0 then "-" else "") ++ natToDecimal ip ++ "." ++
    (if digs = [] then "0" else String.mk (digs.map Nat.digitChar))

/-- Lowercasing of one character; models Python `str.lower()` on the
ASCII and Cyrillic letters that occur in the query keywords. -/
def pyLowerChar (c : Char) : Char :=
  if 'A' ≤ c ∧ c ≤ 'Z' then Char.ofNat (c.toNat + 32)
  else if 'А' ≤ c ∧ c ≤ 'Я' then Char.ofNat (c.toNat + 32)
  else if c = 'Ё' then 'ё' else c

/-- Models Python `str.lower()` (character-wise). -/
def pyLower (s : String) : String := String.mk (s.data.map pyLowerChar)

/-- Models the Python substring test `sub in s`. -/
def strContains (s sub : String) : Bool := decide (sub.data <:+: s.data)

/-! ## Transaction records and the deterministic ID generator
(`indexing_service.py`) -/

/-- A normalized transaction record as produced by
`parse_transactions_csv` (dict with these exact keys). -/
structure Transaction where
  date : String
  amount : ℚ
  category : String
  description : String
  mcc : String
  cashback : ℚ
  is_expense : Bool
deriving DecidableEq

/-- The `unique_string` of `IndexingService._generate_transaction_id`:
user id, date, amount, category, description joined with `|`. -/
def uniqueString (t : Transaction) (userId : ℕ) : String :=
  natToDecimal userId ++ "|" ++ t.date ++ "|" ++ pyFloatStr t.amount ++ "|"
    ++ t.category ++ "|" ++ t.description

/-- `IndexingService._generate_transaction_id`: SHA-256 of the unique
string, first 16 digest bytes formatted as a UUID string. -/
def generateTransactionId (t : Transaction) (userId : ℕ) : String :=
  uuidOfBytes ((sha256Bytes (utf8Encode (uniqueString t userId))).take 16)

/-! ## Whole-batch embedding cache key (`embedding_service.py`) -/

/-- `EmbeddingService._get_cache_key`: SHA-256 hex digest of the texts
joined with the empty separator, truncated to 16 hex characters. -/
def getCacheKey (texts : List String) : String :=
  "embeddings_" ++ String.mk ((hexChars (sha256Bytes (utf8Encode (String.join texts)))).take 16)
    ++ ".pkl"

/-! ## CSV row parsing (`csv_parser.py`) -/

/-- Numeric value of a digit character. -/
def charDigit (c : Char) : ℕ := c.toNat - 48

/-- Value of a list of decimal digit characters. -/
def decimalValue (l : List Char) : ℕ := l.foldl (fun a c => 10 * a + charDigit c) 0

/-- Models Python `float()` on the plain decimal literals occurring in
bank CSV amounts: optional sign, integer digits, optional single point
and fraction digits (at least one digit overall). -/
def parseFloat (s : String) : Option ℚ :=
  let step : List Char → Option ℚ := fun chars =>
    let intPart := chars.takeWhile Char.isDigit
    match chars.dropWhile Char.isDigit with
    | [] => if intPart = [] then none else some ((decimalValue intPart : ℕ) : ℚ)
    | '.' :: fracs =>
      if fracs.all Char.isDigit ∧ (intPart ≠ [] ∨ fracs ≠ []) then
        if fracs = [] then some ((decimalValue intPart : ℕ) : ℚ)
        else some (((decimalValue intPart : ℕ) : ℚ) + ((decimalValue fracs : ℕ) : ℚ) / 10 ^ fracs.length)
      else none
    | _ => none
  match s.data with
  | '-' :: r => (step r).map fun q => -q
  | '+' :: r => step r
  | r => step r

/-- A calendar date. -/
structure YMD where
  year : ℕ
  month : ℕ
  day : ℕ
deriving DecidableEq

/-- Leap year test (Gregorian). -/
def isLeapYear (y : ℕ) : Bool := decide ((y % 4 = 0 ∧ y % 100 ≠ 0) ∨ y % 400 = 0)

/-- Days in a month. -/
def daysInMonth (y m : ℕ) : ℕ :=
  if m = 2 then (if isLeapYear y then 29 else 28)
  else if m = 4 ∨ m = 6 ∨ m = 9 ∨ m = 11 then 30 else 31

/-- Calendar validity as enforced by `datetime`. -/
def validYMD (y m d : ℕ) : Bool :=
  decide (1 ≤ y ∧ y ≤ 9999 ∧ 1 ≤ m ∧ m ≤ 12 ∧ 1 ≤ d) && decide (d ≤ daysInMonth y m)

/-- Split a character list on a separator character (the behaviour of
`str.split(sep)` / `String.splitOn` for a one-character separator). -/
def splitOnChar (sep : Char) : List Char → List (List Char)
  | [] => [[]]
  | c :: t =>
    if c = sep then [] :: splitOnChar sep t
    else
      match splitOnChar sep t with
      | [] => [[c]]
      | g :: gs => (c :: g) :: gs

/-- A numeric date/time field of at most `maxLen` digits. -/
def parseNumField (l : List Char) (maxLen : ℕ) : Option ℕ :=
  if l ≠ [] ∧ l.length ≤ maxLen ∧ l.all Char.isDigit
  then some (decimalValue l) else none

/-- A valid `HH:MM:SS` component as accepted by `strptime`. -/
def validTime (l : List Char) : Bool :=
  match splitOnChar ':' l with
  | [h, m, sec] =>
    match parseNumField h 2, parseNumField m 2, parseNumField sec 2 with
    | some hv, some mv, some sv => decide (hv < 24 ∧ mv < 60 ∧ sv < 60)
    | _, _, _ => false
  | _ => false

/-- `strptime` with format `%d.%m.%Y` (date part). -/
def parseDateDMY (l : List Char) : Option YMD :=
  match splitOnChar '.' l with
  | [d, m, y] =>
    match parseNumField d 2, parseNumField m 2, parseNumField y 4 with
    | some dv, some mv, some yv => if validYMD yv mv dv then some ⟨yv, mv, dv⟩ else none
    | _, _, _ => none
  | _ => none

/-- `strptime` with format `%Y-%m-%d` (date part). -/
def parseDateYMDdash (l : List Char) : Option YMD :=
  match splitOnChar '-' l with
  | [y, m, d] =>
    match parseNumField y 4, parseNumField m 2, parseNumField d 2 with
    | some yv, some mv, some dv => if validYMD yv mv dv then some ⟨yv, mv, dv⟩ else none
    | _, _, _ => none
  | _ => none

/-- A date-plus-`%H:%M:%S` format built from a date-only format. -/
def parseDateTimeFmt (dateOnly : List Char → Option YMD) (l : List Char) : Option YMD :=
  match splitOnChar ' ' l with
  | [ds, ts] => if validTime ts then dateOnly ds else none
  | _ => none

/-- The four supported date formats of `parse_transactions_csv`, tried
in source order. -/
def parseDateFormats (s : String) : Option YMD :=
  match parseDateTimeFmt parseDateDMY s.data with
  | some d => some d
  | none =>
    match parseDateDMY s.data with
    | some d => some d
    | none =>
      match parseDateTimeFmt parseDateYMDdash s.data with
      | some d => some d
      | none => parseDateYMDdash s.data

/-- Zero-padded two-digit field. -/
def pad2 (n : ℕ) : String := if n < 10 then "0" ++ natToDecimal n else natToDecimal n

/-- Zero-padded four-digit field. -/
def pad4 (n : ℕ) : String :=
  if n < 10 then "000" ++ natToDecimal n
  else if n < 100 then "00" ++ natToDecimal n
  else if n < 1000 then "0" ++ natToDecimal n
  else natToDecimal n

/-- `date.isoformat()`. -/
def isoFormat (d : YMD) : String := pad4 d.year ++ "-" ++ pad2 d.month ++ "-" ++ pad2 d.day

/-- One CSV row as seen through `csv.DictReader` (semicolon-separated
source file; a missing optional `MCC` column reads as `none`). -/
structure CsvRow where
  dateStr : String
  amountStr : String
  category : String
  description : String
  mcc : Option String

/-- The amount-string normalization of `parse_transactions_csv`:
`.replace(' ', '').replace(',', '.')` — drop all spaces, then turn every
comma into a dot. -/
def normalizeAmount (s : String) : String :=
  String.mk ((s.data.filter fun c => ¬ c = ' ').map fun c => if c = ',' then '.' else c)

/-- Models Python `str.strip()`: drop whitespace from both ends. -/
def pyStrip (s : String) : String :=
  String.mk (((s.data.dropWhile Char.isWhitespace).reverse.dropWhile Char.isWhitespace).reverse)

/-- One loop iteration of `parse_transactions_csv`: `none` means the row
is skipped (empty date, unparseable date, unparseable amount). -/
def parseRow (row : CsvRow) : Option Transaction :=
  if row.dateStr = "" then none
  else
    match parseDateFormats (pyStrip row.dateStr) with
    | none => none
    | some d =>
      match parseFloat (normalizeAmount row.amountStr) with
      | none => none
      | some amount =>
        let cashbackStr := normalizeAmount row.amountStr
        let cashback : ℚ := if cashbackStr = "" then 0 else (parseFloat cashbackStr).getD 0
        some { date := isoFormat d, amount := |amount|,
               category := pyStrip row.category, description := pyStrip row.description,
               mcc := pyStrip (row.mcc.getD ""), cashback := cashback,
               is_expense := decide (amount < 0) }

/-- `parse_transactions_csv` over the data rows: invalid rows are
skipped. -/
def parseTransactionsRows (rows : List CsvRow) : List Transaction := rows.filterMap parseRow

/-- `format_transaction_text`. -/
def formatTransactionText (t : Transaction) : String :=
  let text := t.date ++ " " ++ t.category ++ " " ++ t.description ++ " "
    ++ pyFloatStr t.amount ++ " руб"
  if t.mcc ≠ "" then text ++ " MCC:" ++ t.mcc else text

/-! ## Indexing engine (`indexing_service.py`) -/

/-- A sparse vector: parallel index/value lists. -/
structure SparseVec where
  indices : List ℕ
  values : List ℚ

/-- The payload attached to an indexed point: transaction fields plus
derived filter fields. -/
structure Payload where
  date : String
  amount : ℚ
  category : String
  description : String
  mcc : String
  cashback : ℚ
  is_expense : Bool
  user_id : ℕ
  year : ℕ
  month : ℕ
  quarter : ℕ
  day_of_week : ℕ

/-- An indexed point with named dense/sparse vectors. -/
structure Point where
  id : String
  dense : List ℚ
  sparse : SparseVec
  payload : Payload

/-- Days since 1970-01-01 of a Gregorian date (civil-calendar
conversion with truncating division, as in `datetime`). -/
def daysFromCivil (y m d : ℤ) : ℤ :=
  let y2 := if m ≤ 2 then y - 1 else y
  let era := (if 0 ≤ y2 then y2 else y2 - 399) / 400
  let yoe := y2 - era * 400
  let mp := (m + 9) % 12
  let doy := (153 * mp + 2) / 5 + d - 1
  let doe := yoe * 365 + yoe / 4 - yoe / 100 + doy
  era * 146097 + doe - 719468

/-- `date.weekday()`: Monday is 0, Sunday is 6. -/
def pyWeekday (y m d : ℕ) : ℕ := ((daysFromCivil y m d + 3) % 7).toNat

/-- `datetime.fromisoformat` on the `YYYY-MM-DD` strings produced by
`date.isoformat()`. -/
def parseIsoDate (s : String) : Option YMD := parseDateYMDdash s.data

/-- The payload dict built in `IndexingService.load_from_csv`. -/
def buildPayload (t : Transaction) (userId : ℕ) (d : YMD) : Payload :=
  { date := t.date, amount := t.amount, category := t.category,
    description := t.description, mcc := t.mcc, cashback := t.cashback,
    is_expense := t.is_expense, user_id := userId,
    year := d.year, month := d.month, quarter := (d.month - 1) / 3 + 1,
    day_of_week := pyWeekday d.year d.month d.day }

/-- One `PointStruct` of the indexing loop; `none` models the exception
path (invalid stored date or missing embedding row), which the outer
handler re-raises. -/
def buildPoint (userId : ℕ) (vecs : List (List ℚ) × List SparseVec) (it : ℕ × Transaction) :
    Option Point :=
  match parseIsoDate it.2.date, vecs.1[it.1]?, vecs.2[it.1]? with
  | some d, some dv, some sv =>
    some { id := generateTransactionId it.2 userId, dense := dv, sparse := sv,
           payload := buildPayload it.2 userId d }
  | _, _, _ => none

/-- All points of one load call, in CSV order. -/
def buildPoints (userId : ℕ) (vecs : List (List ℚ) × List SparseVec)
    (ts : List Transaction) : Option (List Point) :=
  ts.enum.mapM (buildPoint userId vecs)

/-- Result of `IndexingService.load_from_csv`: whether the user's prior
points were deleted first, the returned count, and the upserted batches. -/
structure LoadResult where
  deletedUser : Bool
  count : ℕ
  batches : List (List Point)

/-- `IndexingService.load_from_csv`.  The CSV parse outcome and the
embedding backend are explicit arguments; `none` models a propagated
exception.  On a parse failure or an empty record list the call returns
0 and upserts nothing (the `replace` deletion has already happened). -/
def loadFromCsv (parseResult : Except Unit (List Transaction)) (userId : ℕ)
    (replace : Bool) (embedBatch : List String → List (List ℚ) × List SparseVec) :
    Option LoadResult :=
  match parseResult with
  | .error _ => some ⟨replace, 0, []⟩
  | .ok transactions =>
    if transactions = [] then some ⟨replace, 0, []⟩
    else
      let texts := transactions.map formatTransactionText
      match buildPoints userId (embedBatch texts) transactions with
      | none => none
      | some points =>
        let batches := chunkList 50 points
        some ⟨replace, (batches.map List.length).sum, batches⟩

/-! ## Hybrid retrieval engine (`rag_service.py`) -/

/-- A search hit as returned by the vector store: a point id (already
stringified) and the stored payload fields read via `payload.get`. -/
structure Hit where
  id : String
  date : Option String
  amount : Option ℚ
  category : Option String
  description : Option String
deriving DecidableEq

/-- A fused transaction entry as returned by `_rrf_fusion`. -/
structure FusedTx where
  id : String
  date : String
  amount : ℚ
  category : String
  description : String
  rrf_score : ℚ
deriving DecidableEq

/-- `rrf_scores.setdefault(point_id, []).append(v)`: insertion-ordered
map from point id to the list of reciprocal-rank contributions. -/
def rrfInsert (m : List (String × List ℚ)) (pid : String) (v : ℚ) :
    List (String × List ℚ) :=
  match m with
  | [] => [(pid, [v])]
  | (k, l) :: rest =>
    if k = pid then (k, l ++ [v]) :: rest else (k, l) :: rrfInsert rest pid v

/-- One `for rank, hit in enumerate(results, start=rank0)` pass adding
`1.0 / (rank + 60)` per hit. -/
def rrfAddList (rank0 : ℕ) (hits : List Hit) (m : List (String × List ℚ)) :
    List (String × List ℚ) :=
  match hits with
  | [] => m
  | h :: t => rrfAddList (rank0 + 1) t (rrfInsert m h.id (1 / ((rank0 : ℚ) + 60)))

/-- The `rrf_scores` dict after both passes (dense first, then sparse,
both enumerated from rank 1). -/
def rrfScores (dense sparse : List Hit) : List (String × List ℚ) :=
  rrfAddList 1 sparse (rrfAddList 1 dense [])

/-- `combined_scores`: average the per-source contributions. -/
def combinedScores (dense sparse : List Hit) : List (String × ℚ) :=
  (rrfScores dense sparse).map fun p => (p.1, p.2.sum / (p.2.length : ℚ))

/-- `combined_scores.sort(key=..., reverse=True)`: stable descending
sort by score. -/
def sortedScores (dense sparse : List Hit) : List (String × ℚ) :=
  (combinedScores dense sparse).mergeSort fun a b => decide (b.2 ≤ a.2)

/-- `hits_dict[point_id] = hit`: overwrite the stored hit, keeping the
original insertion position. -/
def dictInsert (m : List (String × Hit)) (h : Hit) : List (String × Hit) :=
  match m with
  | [] => [(h.id, h)]
  | (k, v) :: rest =>
    if k = h.id then (k, h) :: rest else (k, v) :: dictInsert rest h

/-- The `hits_dict` built from the dense hits then the sparse hits. -/
def hitsDict (dense sparse : List Hit) : List (String × Hit) :=
  sparse.foldl dictInsert (dense.foldl dictInsert [])

/-- Association-list lookup with decidable equality (`dict.get`). -/
def alistGet (m : List (String × α)) (k : String) : Option α :=
  match m with
  | [] => none
  | (k2, v) :: rest => if k2 = k then some v else alistGet rest k

/-- The transaction dict built for one surviving point. -/
def mkFusedTx (pid : String) (h : Hit) (score : ℚ) : FusedTx :=
  { id := pid, date := h.date.getD "N/A", amount := h.amount.getD 0,
    category := h.category.getD "Неизвестно", description := h.description.getD "",
    rrf_score := score }

/-- `RAGService._rrf_fusion`: averaged reciprocal-rank scores, stable
descending sort, top `k`, resolved back to hit payloads. -/
def rrfFusion (dense sparse : List Hit) (k : ℕ) : List FusedTx :=
  ((sortedScores dense sparse).take k).filterMap fun p =>
    (alistGet (hitsDict dense sparse) p.1).map fun h => mkFusedTx p.1 h p.2

/-- `RAGService._estimate_limit`: keyword-based result-size heuristic. -/
def estimateLimit (query : String) : ℕ :=
  let ql := pyLower query
  if ["всего", "итого", "сумма", "средний", "за месяц", "за год", "статистика",
      "сколько всего", "топ", "рейтинг"].any (fun w => strContains ql w) then 300
  else if ["последн", "недавн", "вчера", "сегодня", "когда", "найди"].any
      (fun w => strContains ql w) then 70
  else if ["кафе", "рестора", "такси", "еда", "подписк", "развлечен"].any
      (fun w => strContains ql w) then 100
  else 90

/-- Parameters of one `qdrant.search` call. -/
structure SearchRequest where
  vectorName : String
  userId : ℕ
  limit : ℕ
  scoreThreshold : ℚ
deriving DecidableEq

/-- The two filtered search requests issued by
`RAGService._search_transactions`.  The `limitArg` parameter passed in
by `ask` is dead: line 71 re-derives the limit from the query before the
requests are built. -/
def searchRequests (query : String) (userId : ℕ) (limitArg : ℕ) :
    SearchRequest × SearchRequest :=
  let lim := estimateLimit query
  (⟨"dense", userId, lim * 2, 6 / 10⟩, ⟨"sparse", userId, lim * 2, 4 / 10⟩)

/-- A failed search (`except Exception`) yields the empty result list. -/
def resultsOf (r : Except Unit (List Hit)) : List Hit :=
  match r with
  | .ok l => l
  | .error _ => []

/-- `RAGService._search_transactions` given the two search outcomes:
degrade a failed source to `[]`; fuse unless both sources are empty.
The fusion cutoff is the re-derived heuristic limit, not `limitArg`. -/
def searchTransactions (query : String) (userId : ℕ) (limitArg : ℕ)
    (denseRes sparseRes : Except Unit (List Hit)) : List FusedTx :=
  let lim := estimateLimit query
  let dense := resultsOf denseRes
  let sparse := resultsOf sparseRes
  if dense ≠ [] ∨ sparse ≠ [] then rrfFusion dense sparse lim else []

/-- Round-half-even of a rational to an integer; models the rounding of
Python `format` on exactly representable values. -/
def roundHalfEven (q : ℚ) : ℤ :=
  let f := ⌊q⌋
  let r := q - f
  if r < 1 / 2 then f
  else if 1 / 2 < r then f + 1
  else if f % 2 = 0 then f else f + 1

/-- Decimal digits of a natural number grouped in threes. -/
def groupThousands (n : ℕ) : String :=
  if n = 0 then "0"
  else
    let gs := chunkList 3 (digitsOf n)
    String.mk (List.intercalate [' '] (gs.reverse.map fun g => (g.map Nat.digitChar).reverse))

/-- Models `f"{x:,.0f}".replace(",", " ")`: rounded amount with
space-separated thousands groups. -/
def pyFormatThousands (q : ℚ) : String :=
  let n := roundHalfEven q
  (if n < 0 then "-" else "") ++ groupThousands n.natAbs

/-- Models `f"{x:.1%}"`: percentage with one decimal digit. -/
def pyFormatPercent1 (q : ℚ) : String :=
  let t := roundHalfEven (q * 1000)
  (if t < 0 then "-" else "") ++ natToDecimal (t.natAbs / 10) ++ "."
    ++ String.mk [Nat.digitChar (t.natAbs % 10)] ++ "%"

/-- One formatted transaction line of `RAGService._format_context`. -/
def txLine (i : ℕ) (tx : FusedTx) : String :=
  natToDecimal i ++ ". **" ++ tx.date ++ "** - *" ++ tx.category ++ "*\n   Сумма: "
    ++ pyFormatThousands tx.amount ++ "₽\n   Описание: " ++ tx.description
    ++ "\n   Релевантность: " ++ pyFormatPercent1 tx.rrf_score ++ "\n\n"

/-- `RAGService._format_context`. -/
def formatContext (transactions : List FusedTx) : String :=
  if transactions = [] then "У пользователя нет соответствующих транзакций."
  else
    "Найдено " ++ natToDecimal transactions.length ++ " релевантных транзакций:\n\n"
      ++ String.join (transactions.enum.map fun it => txLine (it.1 + 1) it.2)

/-- One chat message of the prompt. -/
structure ChatMessage where
  role : String
  content : String
deriving DecidableEq

/-- Modelled from the spec: `SYSTEM_PROMPT` is imported by
`rag_service.py` from `app.config`, but no definition of it appears
under `src/` (`config.py` has only a commented-out LLM section).  The
spec describes it as a fixed system instruction wrapped in front of the
context and query; its exact text is never load-bearing here. -/
def SYSTEM_PROMPT : String :=
  "Ты — финансовый ассистент. Отвечай на вопросы по транзакциям пользователя."

/-- `RAGService._build_messages`. -/
def buildMessages (context query : String) : List ChatMessage :=
  [⟨"system", SYSTEM_PROMPT⟩, ⟨"user", context ++ "\n\nВопрос: " ++ query⟩]

/-- The dict returned by `RAGService.ask`. -/
structure AskResult where
  query : String
  answer : String
  transactions : List FusedTx
  found_count : ℕ
deriving DecidableEq

/-- `RAGService.ask`: derive the limit when unset, search, format the
context, build the prompt and call the language model (always), then
return answer plus retrieved transactions. -/
def ask (query : String) (userId : ℕ) (limit : Option ℕ)
    (denseRes sparseRes : Except Unit (List Hit))
    (llmGenerate : List ChatMessage → String) : AskResult :=
  let lim := match limit with
    | none => estimateLimit query
    | some l => l
  let transactions := searchTransactions query userId lim denseRes sparseRes
  let context := formatContext transactions
  let answer := llmGenerate (buildMessages context query)
  { query := query, answer := answer, transactions := transactions,
    found_count := transactions.length }

/-! ## Specification-side definitions (stated from the claims, to be
compared with the embedded code) -/

/-- 1-based rank of the first hit with the given point id, starting the
count at `r`. -/
def rankFrom (r : ℕ) (hits : List Hit) (pid : String) : Option ℕ :=
  match hits with
  | [] => none
  | h :: t => if h.id = pid then some r else rankFrom (r + 1) t pid

/-- 1-based rank of a point in a ranked result list. -/
def rankOf (hits : List Hit) (pid : String) : Option ℕ := rankFrom 1 hits pid

/-- The RRF score as worded by the spec: a point at 1-based rank `r` in
a list contributes `1/(r+60)`; a point in both lists receives the
average of its two contributions. -/
def claimScore (dense sparse : List Hit) (pid : String) : ℚ :=
  match rankOf dense pid, rankOf sparse pid with
  | some r, some r2 => (1 / ((r : ℚ) + 60) + 1 / ((r2 : ℚ) + 60)) / 2
  | some r, none => 1 / ((r : ℚ) + 60)
  | none, some r2 => 1 / ((r2 : ℚ) + 60)
  | none, none => 0

/-- The distinct point ids appearing in either result list. -/
def candidateIds (dense sparse : List Hit) : List String :=
  ((dense ++ sparse).map Hit.id).dedup

/-- The first 16 digest bytes of a transaction id, packaged as a vector
over `Fin 256`: the id construction factors through this finite type. -/
def idVec (t : Transaction) (u : ℕ) : Mathlib.Vector (Fin 256) 16 :=
  ⟨((sha256Bytes (utf8Encode (uniqueString t u))).take 16).map
      (fun b => ⟨b % 256, Nat.mod_lt b (by norm_num)⟩),
    by rw [List.length_map, List.length_take]; simp [sha256Bytes, wordBytes]⟩

/-! ## Helper lemmas -/

theorem sha256Bytes_length (msg : List ℕ) : (sha256Bytes msg).length = 32 := by
  simp [sha256Bytes, wordBytes]

theorem sha256Bytes_lt (msg : List ℕ) : ∀ b ∈ sha256Bytes msg, b < 256 := by
  intro b hb
  simp only [sha256Bytes, wordBytes, List.mem_append, List.mem_cons,
    List.not_mem_nil, or_false] at hb
  omega

/-! ## Claim C3: non-key fields do not influence the transaction id -/

/-- Claim C3: two transactions agreeing on date, amount, category and
description receive the same deterministic id for the same user, whatever
their other fields (mcc, cashback, is_expense) are; indexing both therefore
targets a single point and the later upsert overwrites the earlier. -/
theorem transaction_id_ignores_non_key_fields (t1 t2 : Transaction) (u : ℕ)
    (hdate : t1.date = t2.date) (hamount : t1.amount = t2.amount)
    (hcat : t1.category = t2.category) (hdesc : t1.description = t2.description) :
    generateTransactionId t1 u = generateTransactionId t2 u := by
  unfold generateTransactionId uniqueString
  rw [hdate, hamount, hcat, hdesc]

/-- Witness for C3: two records differing only in mcc and cashback are
distinct yet collide on the id. -/
theorem transaction_id_ignores_non_key_fields_witness :
    (⟨"2024-03-01", 500, "Cafe", "Coffee", "5812", 5, false⟩ : Transaction) ≠
      ⟨"2024-03-01", 500, "Cafe", "Coffee", "", 0, false⟩ ∧
    generateTransactionId ⟨"2024-03-01", 500, "Cafe", "Coffee", "5812", 5, false⟩ 1 =
      generateTransactionId ⟨"2024-03-01", 500, "Cafe", "Coffee", "", 0, false⟩ 1 :=
  ⟨fun h => absurd (congrArg Transaction.mcc h) (by decide),
   transaction_id_ignores_non_key_fields _ _ 1 rfl rfl rfl rfl⟩

/-! ## Claim C7: the whole-batch embedding cache key -/

/-- Counterexample to C7 as stated: the batches `["ab", "c"]` and
`["a", "bc"]` are element-wise different, yet `_get_cache_key` joins the
texts with no separator, so both hash the same concatenation `"abc"` and
receive the same cache key. -/
theorem cache_key_boundary_collision :
    getCacheKey ["ab", "c"] = getCacheKey ["a", "bc"] ∧
    (["ab", "c"] : List String) ≠ ["a", "bc"] :=
  ⟨rfl, by decide⟩

/-- Claim C7 (amended): the cache key is a function of the separator-free
concatenation of the batch texts only; any two batches with equal
concatenations share a key, so element-wise distinctness does not imply
key distinctness. -/
theorem cache_key_depends_only_on_join (t1 t2 : List String)
    (h : String.join t1 = String.join t2) : getCacheKey t1 = getCacheKey t2 := by
  unfold getCacheKey
  rw [h]

/-- Witness for the amended C7 at a concrete boundary shift. -/
theorem cache_key_depends_only_on_join_witness :
    String.join ["ab", "c"] = String.join ["a", "bc"] ∧
    getCacheKey ["ab", "c"] = getCacheKey ["a", "bc"] :=
  ⟨rfl, cache_key_depends_only_on_join ["ab", "c"] ["a", "bc"] rfl⟩

/-! ## Claim C5: the empty-retrieval case of `ask` -/

/-- Counterexample to C5 as stated: even when both searches return zero
hits, `ask` still invokes the language-model generation step — the
returned answer is whatever the model produces (here two different
constant models yield two different answers), although the transaction
list is empty and `found_count` is 0. -/
theorem ask_empty_still_invokes_generation :
    (ask "тест" 7 none (.ok []) (.ok []) fun _ => "ОТВЕТ МОДЕЛИ").answer = "ОТВЕТ МОДЕЛИ" ∧
    (ask "тест" 7 none (.ok []) (.ok []) fun _ => "A").answer ≠
      (ask "тест" 7 none (.ok []) (.ok []) fun _ => "B").answer ∧
    (ask "тест" 7 none (.ok []) (.ok []) fun _ => "ОТВЕТ МОДЕЛИ").transactions = [] ∧
    (ask "тест" 7 none (.ok []) (.ok []) fun _ => "ОТВЕТ МОДЕЛИ").found_count = 0 :=
  ⟨rfl, by decide, rfl, rfl⟩

/-- Claim C5 (amended): when both searches return zero hits, `ask`
returns `transactions = []` and `found_count = 0`, but generation is
still invoked — on a prompt whose context block is the fixed
no-matching-transactions sentence. -/
theorem ask_empty_sources (q : String) (uid : ℕ) (lim : Option ℕ)
    (llmGenerate : List ChatMessage → String) :
    ask q uid lim (.ok []) (.ok []) llmGenerate =
      { query := q, answer := llmGenerate (buildMessages (formatContext []) q),
        transactions := [], found_count := 0 } ∧
    formatContext [] = "У пользователя нет соответствующих транзакций." :=
  ⟨rfl, rfl⟩

/-! ## Claim C6: search parameters and the limit heuristic -/

/-- Counterexample to C6 as stated: `ask` is called with the explicit
limit 5, yet both search requests are issued with result count 180 =
2 × (heuristic limit of the query), not 2 × 5 — line 71 of
`rag_service.py` overrides the caller-supplied limit. -/
theorem search_requests_ignore_caller_limit :
    (searchRequests "тест" 7 5).1.limit = 180 ∧
    (searchRequests "тест" 7 5).1.limit ≠ 2 * 5 ∧
    (searchRequests "тест" 7 5).2.limit = 180 :=
  ⟨rfl, by decide, rfl⟩

/-- Claim C6 (amended): `_search_transactions` re-derives the limit from
the query-intent heuristic unconditionally, ignoring the limit passed by
`ask` (whether defaulted or explicit): both searches are issued with
result count `2 × estimateLimit query`, the dense request with threshold
0.6 and the sparse request with threshold 0.4, both restricted to the
user; the retrieval result likewise does not depend on the caller's
limit argument. -/
theorem search_requests_use_heuristic_limit (q : String) (uid : ℕ) (l l2 : ℕ)
    (dres sres : Except Unit (List Hit)) :
    searchRequests q uid l =
      (⟨"dense", uid, estimateLimit q * 2, 6 / 10⟩,
       ⟨"sparse", uid, estimateLimit q * 2, 4 / 10⟩) ∧
    searchTransactions q uid l dres sres = searchTransactions q uid l2 dres sres :=
  ⟨rfl, rfl⟩

/-! ## Claim C8: degenerate outcomes of `load_from_csv` -/

/-- Claim C8: if parsing the source fails (any exception, caught by the
bare `except`) or produces zero records, `load_from_csv` returns 0
without raising, and no point batches are upserted; only the
`replace`-mode deletion (which precedes parsing) has happened. -/
theorem load_from_csv_degenerate (uid : ℕ) (r : Bool)
    (embedBatch : List String → List (List ℚ) × List SparseVec) (e : Unit) :
    loadFromCsv (.error e) uid r embedBatch = some ⟨r, 0, []⟩ ∧
    loadFromCsv (.ok []) uid r embedBatch = some ⟨r, 0, []⟩ :=
  ⟨rfl, rfl⟩

/-! ## Claim C4: graceful degradation of the dual search -/

/-- Claim C4: if exactly one search outcome is a backend error, that
source is treated as the empty list and retrieval continues with the
other source: the result is the RRF fusion of the surviving source (and
`ask` returns those fused results rather than an error); if both sources
return nothing — by error or by an empty hit list — retrieval returns
`[]` without fusing. -/
theorem search_degrades_gracefully (q : String) (uid : ℕ) (l : ℕ) (hits : List Hit)
    (e e2 : Unit) (hne : hits ≠ []) :
    searchTransactions q uid l (.error e) (.ok hits) = rrfFusion [] hits (estimateLimit q) ∧
    searchTransactions q uid l (.ok hits) (.error e) = rrfFusion hits [] (estimateLimit q) ∧
    (∀ (lim : Option ℕ) (llmGenerate : List ChatMessage → String),
      (ask q uid lim (.error e) (.ok hits) llmGenerate).transactions =
        rrfFusion [] hits (estimateLimit q)) ∧
    searchTransactions q uid l (.ok []) (.ok []) = [] ∧
    searchTransactions q uid l (.error e) (.error e2) = [] := by
  refine ⟨?_, ?_, ?_, rfl, rfl⟩
  · simp [searchTransactions, resultsOf, hne]
  · simp [searchTransactions, resultsOf, hne]
  · intro lim llmGenerate
    simp [ask, searchTransactions, resultsOf, hne]

/-- Witness for C4 with a one-hit surviving sparse source. -/
theorem search_degrades_gracefully_witness :
    ([(⟨"p1", some "2024-03-01", some 500, some "Cafe", some "Coffee"⟩ : Hit)] ≠
      ([] : List Hit)) ∧
    (searchTransactions "тест" 7 5 (.error ())
        (.ok [⟨"p1", some "2024-03-01", some 500, some "Cafe", some "Coffee"⟩]) =
      rrfFusion [] [⟨"p1", some "2024-03-01", some 500, some "Cafe", some "Coffee"⟩]
        (estimateLimit "тест") ∧
      searchTransactions "тест" 7 5
        (.ok [⟨"p1", some "2024-03-01", some 500, some "Cafe", some "Coffee"⟩]) (.error ()) =
      rrfFusion [⟨"p1", some "2024-03-01", some 500, some "Cafe", some "Coffee"⟩] []
        (estimateLimit "тест") ∧
      (∀ (lim : Option ℕ) (llmGenerate : List ChatMessage → String),
        (ask "тест" 7 lim (.error ())
          (.ok [⟨"p1", some "2024-03-01", some 500, some "Cafe", some "Coffee"⟩])
          llmGenerate).transactions =
        rrfFusion [] [⟨"p1", some "2024-03-01", some 500, some "Cafe", some "Coffee"⟩]
          (estimateLimit "тест")) ∧
      searchTransactions "тест" 7 5 (.ok []) (.ok []) = [] ∧
      searchTransactions "тест" 7 5 (.error ()) (.error ()) = []) :=
  ⟨by simp, search_degrades_gracefully "тест" 7 5 _ () () (by simp)⟩

/-! ## Claim C10: cashback is parsed from the amount column -/

/-- Claim C10: for every successfully parsed CSV row, the cashback field
is computed from the same amount column string as the amount field, so
cashback equals the signed parsed amount, amount equals its absolute
value, and is_expense holds exactly when the parsed amount is negative. -/
theorem cashback_equals_signed_amount (row : CsvRow) (t : Transaction)
    (h : parseRow row = some t) :
    ∃ q : ℚ, parseFloat (normalizeAmount row.amountStr) = some q ∧
      t.cashback = q ∧ t.amount = |q| ∧ (t.is_expense = true ↔ q < 0) := by
  unfold parseRow at h
  by_cases hdate : row.dateStr = ""
  · simp [hdate] at h
  rw [if_neg hdate] at h
  cases hfmt : parseDateFormats (pyStrip row.dateStr) with
  | none => rw [hfmt] at h; exact absurd h (by simp)
  | some d =>
    rw [hfmt] at h
    cases hamt : parseFloat (normalizeAmount row.amountStr) with
    | none => rw [hamt] at h; exact absurd h (by simp)
    | some q =>
      rw [hamt] at h
      refine ⟨q, rfl, ?_, ?_, ?_⟩
      · have hne : normalizeAmount row.amountStr ≠ "" := by
          intro hc
          rw [hc] at hamt
          exact absurd hamt (by simp [parseFloat])
        simp only [Option.some.injEq] at h
        rw [← h]
        simp [hne, hamt]
      · simp only [Option.some.injEq] at h
        rw [← h]
      · simp only [Option.some.injEq] at h
        rw [← h]
        simp

/-- Witness for C10: a row with amount column `-500` parses to a record
with cashback −500 (the signed value from the amount column), amount 500
and is_expense true. -/
theorem cashback_equals_signed_amount_witness :
    parseRow ⟨"2024-03-01", "-500", "Taxi", "Ride", none⟩ =
      some ⟨"2024-03-01", 500, "Taxi", "Ride", "", -500, true⟩ ∧
    ∃ q : ℚ,
      parseFloat (normalizeAmount (CsvRow.amountStr ⟨"2024-03-01", "-500", "Taxi", "Ride", none⟩)) =
        some q ∧
      (Transaction.cashback ⟨"2024-03-01", 500, "Taxi", "Ride", "", -500, true⟩) = q ∧
      (Transaction.amount ⟨"2024-03-01", 500, "Taxi", "Ride", "", -500, true⟩) = |q| ∧
      ((Transaction.is_expense ⟨"2024-03-01", 500, "Taxi", "Ride", "", -500, true⟩) = true ↔ q < 0) :=
  ⟨rfl, cashback_equals_signed_amount ⟨"2024-03-01", "-500", "Taxi", "Ride", none⟩
    ⟨"2024-03-01", 500, "Taxi", "Ride", "", -500, true⟩ rfl⟩

/-! ## Lemmas on decimal rendering -/

theorem natDigitsAux_eq_digits (fuel : ℕ) : ∀ n : ℕ, n ≤ fuel → natDigitsAux fuel n = Nat.digits 10 n := by
  induction fuel with
  | zero =>
    intro n hn
    interval_cases n
    simp [natDigitsAux]
  | succ fuel ih =>
    intro n hn
    by_cases h0 : n = 0
    · simp [natDigitsAux, h0]
    · rw [natDigitsAux, if_neg h0, Nat.digits_def' (by norm_num : 1 < 10) (Nat.pos_of_ne_zero h0),
        ih (n / 10) ?_]
      have : n / 10 < n := Nat.div_lt_self (Nat.pos_of_ne_zero h0) (by norm_num)
      omega

theorem digitsOf_eq_digits (n : ℕ) : digitsOf n = Nat.digits 10 n :=
  natDigitsAux_eq_digits n n le_rfl

theorem digitChar_inj_bounded : ∀ a < 10, ∀ b < 10, Nat.digitChar a = Nat.digitChar b → a = b := by
  decide

theorem digitChar_ne_bar : ∀ a < 10, Nat.digitChar a ≠ '|' := by decide

theorem map_digitChar_inj : ∀ (l1 l2 : List ℕ), (∀ x ∈ l1, x < 10) → (∀ x ∈ l2, x < 10) →
    l1.map Nat.digitChar = l2.map Nat.digitChar → l1 = l2 := by
  intro l1
  induction l1 with
  | nil =>
    intro l2 _ _ h
    cases l2 with
    | nil => rfl
    | cons b t2 => simp at h
  | cons a t1 ih =>
    intro l2 h1 h2 h
    cases l2 with
    | nil => simp at h
    | cons b t2 =>
      simp only [List.map_cons, List.cons.injEq] at h
      have ha : a = b :=
        digitChar_inj_bounded a (h1 a (by simp)) b (h2 b (by simp)) h.1
      rw [ha, ih t2 (fun x hx => h1 x (by simp [hx])) (fun x hx => h2 x (by simp [hx])) h.2]

theorem string_data_inj (s t : String) (h : s.data = t.data) : s = t := by
  cases s
  cases t
  exact congrArg String.mk h

theorem natToDecimal_inj (m n : ℕ) (h : natToDecimal m = natToDecimal n) : m = n := by
  unfold natToDecimal at h
  by_cases hm : m = 0 <;> by_cases hn : n = 0
  · rw [hm, hn]
  · exfalso
    rw [if_pos hm, if_neg hn] at h
    have hd : (["0".data.head?.getD ' '] : List Char) = ['0'] := rfl
    have hdata : ("0" : String).data = (((digitsOf n).map Nat.digitChar).reverse : List Char) :=
      congrArg String.data h
    have hlist : (['0'] : List Char) = ((digitsOf n).map Nat.digitChar).reverse := hdata
    have hrev : ((digitsOf n).map Nat.digitChar) = ['0'] := by
      have := congrArg List.reverse hlist
      simpa using this.symm
    have hdig : digitsOf n = [0] := by
      apply map_digitChar_inj
      · rw [digitsOf_eq_digits]
        intro x hx
        exact Nat.digits_lt_base (by norm_num) hx
      · intro x hx
        simp at hx
        omega
      · rw [hrev]
        rfl
    rw [digitsOf_eq_digits] at hdig
    have := Nat.ofDigits_digits 10 n
    rw [hdig] at this
    simp [Nat.ofDigits] at this
    exact hn this.symm
  · exfalso
    rw [if_neg hm, if_pos hn] at h
    have hdata : ((((digitsOf m).map Nat.digitChar).reverse : List Char)) = ("0" : String).data :=
      congrArg String.data h
    have hrev : ((digitsOf m).map Nat.digitChar) = ['0'] := by
      have := congrArg List.reverse hdata
      simpa using this
    have hdig : digitsOf m = [0] := by
      apply map_digitChar_inj
      · rw [digitsOf_eq_digits]
        intro x hx
        exact Nat.digits_lt_base (by norm_num) hx
      · intro x hx
        simp at hx
        omega
      · rw [hrev]
        rfl
    rw [digitsOf_eq_digits] at hdig
    have := Nat.ofDigits_digits 10 m
    rw [hdig] at this
    simp [Nat.ofDigits] at this
    exact hm this.symm
  · rw [if_neg hm, if_neg hn] at h
    have hdata := congrArg String.data h
    simp only [String.data] at hdata
    have hrev := congrArg List.reverse hdata
    simp only [List.reverse_reverse] at hrev
    have hdig : digitsOf m = digitsOf n := by
      apply map_digitChar_inj _ _ ?_ ?_ hrev
      · rw [digitsOf_eq_digits]
        intro x hx
        exact Nat.digits_lt_base (by norm_num) hx
      · rw [digitsOf_eq_digits]
        intro x hx
        exact Nat.digits_lt_base (by norm_num) hx
    rw [digitsOf_eq_digits, digitsOf_eq_digits] at hdig
    have := congrArg (Nat.ofDigits 10) hdig
    rwa [Nat.ofDigits_digits, Nat.ofDigits_digits] at this

theorem natToDecimal_no_bar (n : ℕ) : '|' ∉ (natToDecimal n).data := by
  unfold natToDecimal
  by_cases hn : n = 0
  · rw [if_pos hn]
    decide
  · rw [if_neg hn]
    intro hmem
    simp only [String.data, List.mem_reverse, List.mem_map] at hmem
    obtain ⟨d, hd, hdc⟩ := hmem
    rw [digitsOf_eq_digits] at hd
    exact digitChar_ne_bar d (Nat.digits_lt_base (by norm_num) hd) hdc

theorem append_bar_inj : ∀ (l1 l2 r1 r2 : List Char), '|' ∉ l1 → '|' ∉ l2 →
    l1 ++ '|' :: r1 = l2 ++ '|' :: r2 → l1 = l2 ∧ r1 = r2 := by
  intro l1
  induction l1 with
  | nil =>
    intro l2 r1 r2 _ h2 h
    cases l2 with
    | nil => simpa using h
    | cons c t2 =>
      simp only [List.nil_append, List.cons_append, List.cons.injEq] at h
      exact absurd (h.1 ▸ List.mem_cons_self c t2) h2
  | cons c t1 ih =>
    intro l2 r1 r2 h1 h2 h
    cases l2 with
    | nil =>
      simp only [List.cons_append, List.nil_append, List.cons.injEq] at h
      exact absurd (h.1 ▸ List.mem_cons_self c t1) h1
    | cons c2 t2 =>
      simp only [List.cons_append, List.cons.injEq] at h
      obtain ⟨hc, hrest⟩ := h
      have := ih t2 r1 r2 (fun hx => h1 (List.mem_cons_of_mem c hx))
        (fun hx => h2 (hc ▸ List.mem_cons_of_mem c2 hx)) hrest
      exact ⟨by rw [hc, this.1], this.2⟩

theorem uniqueString_user_inj (t1 t2 : Transaction) (u u' : ℕ)
    (h : uniqueString t1 u = uniqueString t2 u') : u = u' := by
  unfold uniqueString at h
  have hdata := congrArg String.data h
  simp only [String.data_append, List.append_assoc] at hdata
  simp only [List.cons_append, List.nil_append, List.singleton_append] at hdata
  have := append_bar_inj (natToDecimal u).data (natToDecimal u').data _ _
    (natToDecimal_no_bar u) (natToDecimal_no_bar u') hdata
  exact natToDecimal_inj u u' (string_data_inj _ _ this.1)

theorem idVec_eq_imp_id_eq (t : Transaction) (u u' : ℕ) (h : idVec t u = idVec t u') :
    generateTransactionId t u = generateTransactionId t u' := by
  have hlists := congrArg (fun v : Mathlib.Vector (Fin 256) 16 => v.toList.map Fin.val) h
  simp only [idVec, Mathlib.Vector.toList, List.map_map] at hlists
  have hid : ∀ msg : List ℕ,
      ((sha256Bytes msg).take 16).map (fun b => (((⟨b % 256, Nat.mod_lt b (by norm_num)⟩ :
        Fin 256)) : Fin 256).val) = (sha256Bytes msg).take 16 := by
    intro msg
    have hmap : ∀ x ∈ (sha256Bytes msg).take 16,
        (((⟨x % 256, Nat.mod_lt x (by norm_num)⟩ : Fin 256)) : Fin 256).val = id x := by
      intro x hx
      have : x < 256 := sha256Bytes_lt msg x (List.take_subset 16 _ hx)
      simpa using Nat.mod_eq_of_lt this
    rw [List.map_congr_left hmap, List.map_id]
  have h16 : (sha256Bytes (utf8Encode (uniqueString t u))).take 16 =
      (sha256Bytes (utf8Encode (uniqueString t u'))).take 16 := by
    have l := hid (utf8Encode (uniqueString t u))
    have r := hid (utf8Encode (uniqueString t u'))
    rw [← l, ← r]
    exact hlists
  unfold generateTransactionId
  rw [h16]

/-! ## Claim C2: determinism and cross-user distinctness of ids -/

/-- Counterexample to C2 as stated: its universal cross-user
distinctness part is impossible — the id space (16 bytes of a SHA-256
digest, UUID-formatted) is finite while the user-id space is infinite,
so by the pigeonhole principle some two distinct users collide on the id
of this concrete transaction. -/
theorem transaction_id_not_injective_across_users :
    ¬ ∀ (t : Transaction) (u u' : ℕ), u ≠ u' →
        generateTransactionId t u ≠ generateTransactionId t u' := by
  intro hinj
  obtain ⟨u, u', hne, heq⟩ :=
    Finite.exists_ne_map_eq_of_infinite (idVec ⟨"2024-03-01", 500, "Cafe", "Coffee", "", 0, false⟩)
  exact hinj ⟨"2024-03-01", 500, "Cafe", "Coffee", "", 0, false⟩ u u' hne
    (idVec_eq_imp_id_eq ⟨"2024-03-01", 500, "Cafe", "Coffee", "", 0, false⟩ u u' heq)

/-- Claim C2 (amended): the id generator is a pure deterministic function
of the concatenated `user|date|amount|category|description` string —
SHA-256 hashed, truncated to its first 16 digest bytes and formatted as
a UUID — and distinct users always produce distinct hash-input strings;
id distinctness across users therefore holds exactly up to
collision-freedom of the truncated digest on those distinct inputs (it
cannot hold unconditionally, the id space being finite). -/
theorem transaction_id_deterministic_and_distinct_inputs (t : Transaction) (u u' : ℕ)
    (hne : u ≠ u') :
    generateTransactionId t u =
      uuidOfBytes ((sha256Bytes (utf8Encode (uniqueString t u))).take 16) ∧
    uniqueString t u ≠ uniqueString t u' :=
  ⟨rfl, fun hc => hne (uniqueString_user_inj t t u u' hc)⟩

/-- Witness for the amended C2 at a concrete transaction and users 1, 2. -/
theorem transaction_id_deterministic_and_distinct_inputs_witness :
    (1 : ℕ) ≠ 2 ∧
    (generateTransactionId ⟨"2024-03-01", 500, "Cafe", "Coffee", "", 0, false⟩ 1 =
      uuidOfBytes ((sha256Bytes (utf8Encode
        (uniqueString ⟨"2024-03-01", 500, "Cafe", "Coffee", "", 0, false⟩ 1))).take 16) ∧
    uniqueString ⟨"2024-03-01", 500, "Cafe", "Coffee", "", 0, false⟩ 1 ≠
      uniqueString ⟨"2024-03-01", 500, "Cafe", "Coffee", "", 0, false⟩ 2) :=
  ⟨by decide,
   transaction_id_deterministic_and_distinct_inputs
     ⟨"2024-03-01", 500, "Cafe", "Coffee", "", 0, false⟩ 1 2 (by decide)⟩

/-! ## Lemmas on the RRF fusion structures -/

theorem alistGet_rrfInsert_self (m : List (String × List ℚ)) (pid : String) (v : ℚ) :
    alistGet (rrfInsert m pid v) pid = some ((alistGet m pid).getD [] ++ [v]) := by
  induction m with
  | nil => simp [rrfInsert, alistGet]
  | cons p rest ih =>
    obtain ⟨k, l⟩ := p
    by_cases hk : k = pid
    · subst hk
      simp [rrfInsert, alistGet]
    · simp [rrfInsert, alistGet, hk, ih]

theorem alistGet_rrfInsert_ne (m : List (String × List ℚ)) (pid : String) (v : ℚ)
    (k : String) (h : k ≠ pid) : alistGet (rrfInsert m pid v) k = alistGet m k := by
  induction m with
  | nil =>
    simp only [rrfInsert, alistGet]
    rw [if_neg (fun hc => h hc.symm)]
  | cons p rest ih =>
    obtain ⟨k2, l⟩ := p
    by_cases hk : k2 = pid
    · subst hk
      simp only [rrfInsert, if_pos rfl, alistGet]
      by_cases hkk : k2 = k
      · exact absurd (hkk ▸ h) (fun hc => hc rfl)
      · simp [hkk]
    · simp [rrfInsert, alistGet, hk, ih]

theorem alistGet_rrfAddList_not_mem (hits : List Hit) : ∀ (r : ℕ)
    (m : List (String × List ℚ)) (pid : String), pid ∉ hits.map Hit.id →
    alistGet (rrfAddList r hits m) pid = alistGet m pid := by
  induction hits with
  | nil => intro r m pid _; rfl
  | cons hh t ih =>
    intro r m pid h
    simp only [List.map_cons, List.mem_cons, not_or] at h
    rw [rrfAddList, ih _ _ _ h.2, alistGet_rrfInsert_ne _ _ _ _ h.1]

theorem rankFrom_eq_none_iff (hits : List Hit) : ∀ (r : ℕ) (pid : String),
    rankFrom r hits pid = none ↔ pid ∉ hits.map Hit.id := by
  induction hits with
  | nil => intro r pid; simp [rankFrom]
  | cons hh t ih =>
    intro r pid
    rw [rankFrom]
    by_cases hid : hh.id = pid
    · simp [hid]
    · simp only [if_neg hid, List.map_cons, List.mem_cons, not_or, ih]
      have : ¬ pid = hh.id := fun hc => hid hc.symm
      tauto

theorem alistGet_rrfAddList_rank (hits : List Hit) : ∀ (r rk : ℕ)
    (m : List (String × List ℚ)) (pid : String),
    rankFrom r hits pid = some rk → (hits.map Hit.id).Nodup →
    alistGet (rrfAddList r hits m) pid =
      some ((alistGet m pid).getD [] ++ [1 / ((rk : ℚ) + 60)]) := by
  induction hits with
  | nil => intro r rk m pid h _; simp [rankFrom] at h
  | cons hh t ih =>
    intro r rk m pid h hnd
    simp only [List.map_cons, List.nodup_cons] at hnd
    rw [rankFrom] at h
    by_cases hid : hh.id = pid
    · rw [if_pos hid] at h
      injection h with h
      subst h
      rw [rrfAddList, alistGet_rrfAddList_not_mem t _ _ _ (hid ▸ hnd.1), hid,
        alistGet_rrfInsert_self]
    · rw [if_neg hid] at h
      rw [rrfAddList, ih _ _ _ _ h hnd.2,
        alistGet_rrfInsert_ne _ _ _ _ (fun hc => hid hc.symm)]

theorem alistGet_rrfScores (dense sparse : List Hit) (pid : String)
    (hd : (dense.map Hit.id).Nodup) (hs : (sparse.map Hit.id).Nodup) :
    alistGet (rrfScores dense sparse) pid =
      match rankOf dense pid, rankOf sparse pid with
      | some r, some r2 => some [1 / ((r : ℚ) + 60), 1 / ((r2 : ℚ) + 60)]
      | some r, none => some [1 / ((r : ℚ) + 60)]
      | none, some r2 => some [1 / ((r2 : ℚ) + 60)]
      | none, none => none := by
  unfold rrfScores rankOf
  cases hsr : rankFrom 1 sparse pid with
  | some r2 =>
    rw [alistGet_rrfAddList_rank sparse 1 r2 _ pid hsr hs]
    cases hdr : rankFrom 1 dense pid with
    | some r =>
      rw [alistGet_rrfAddList_rank dense 1 r [] pid hdr hd]
      simp [alistGet]
    | none =>
      rw [alistGet_rrfAddList_not_mem dense 1 [] pid ((rankFrom_eq_none_iff dense 1 pid).mp hdr)]
      simp [alistGet]
  | none =>
    rw [alistGet_rrfAddList_not_mem sparse 1 _ pid ((rankFrom_eq_none_iff sparse 1 pid).mp hsr)]
    cases hdr : rankFrom 1 dense pid with
    | some r =>
      rw [alistGet_rrfAddList_rank dense 1 r [] pid hdr hd]
      simp [alistGet]
    | none =>
      rw [alistGet_rrfAddList_not_mem dense 1 [] pid ((rankFrom_eq_none_iff dense 1 pid).mp hdr)]
      simp [alistGet]

theorem keys_rrfInsert (m : List (String × List ℚ)) (pid : String) (v : ℚ) :
    (rrfInsert m pid v).map Prod.fst =
      if pid ∈ m.map Prod.fst then m.map Prod.fst else m.map Prod.fst ++ [pid] := by
  induction m with
  | nil => simp [rrfInsert]
  | cons p rest ih =>
    obtain ⟨k, l⟩ := p
    by_cases hk : k = pid
    · subst hk
      simp [rrfInsert]
    · have hne : ¬ pid = k := fun hc => hk hc.symm
      by_cases hmem : pid ∈ rest.map Prod.fst
      · simp [rrfInsert, hk, ih, hmem, hne]
      · simp [rrfInsert, hk, ih, hmem, hne]

theorem mem_keys_rrfInsert (m : List (String × List ℚ)) (pid x : String) (v : ℚ) :
    x ∈ (rrfInsert m pid v).map Prod.fst ↔ x ∈ m.map Prod.fst ∨ x = pid := by
  rw [keys_rrfInsert]
  by_cases hmem : pid ∈ m.map Prod.fst
  · rw [if_pos hmem]
    constructor
    · exact fun h => Or.inl h
    · rintro (h | h)
      · exact h
      · exact h ▸ hmem
  · rw [if_neg hmem]
    simp

theorem nodup_keys_rrfInsert (m : List (String × List ℚ)) (pid : String) (v : ℚ)
    (h : (m.map Prod.fst).Nodup) : ((rrfInsert m pid v).map Prod.fst).Nodup := by
  rw [keys_rrfInsert]
  by_cases hmem : pid ∈ m.map Prod.fst
  · rwa [if_pos hmem]
  · rw [if_neg hmem, List.nodup_append]
    refine ⟨h, List.nodup_singleton pid, ?_⟩
    intro x hx hmem2
    simp only [List.mem_singleton] at hmem2
    exact hmem (hmem2 ▸ hx)

theorem mem_keys_rrfAddList (hits : List Hit) : ∀ (r : ℕ) (m : List (String × List ℚ))
    (x : String), x ∈ (rrfAddList r hits m).map Prod.fst ↔
      x ∈ m.map Prod.fst ∨ x ∈ hits.map Hit.id := by
  induction hits with
  | nil => intro r m x; simp [rrfAddList]
  | cons hh t ih =>
    intro r m x
    rw [rrfAddList, ih, mem_keys_rrfInsert]
    simp only [List.map_cons, List.mem_cons]
    tauto

theorem nodup_keys_rrfAddList (hits : List Hit) : ∀ (r : ℕ) (m : List (String × List ℚ)),
    (m.map Prod.fst).Nodup → ((rrfAddList r hits m).map Prod.fst).Nodup := by
  induction hits with
  | nil => intro r m h; exact h
  | cons hh t ih =>
    intro r m h
    rw [rrfAddList]
    exact ih _ _ (nodup_keys_rrfInsert _ _ _ h)

theorem nodup_keys_rrfScores (dense sparse : List Hit) :
    ((rrfScores dense sparse).map Prod.fst).Nodup :=
  nodup_keys_rrfAddList sparse 1 _ (nodup_keys_rrfAddList dense 1 [] (by simp))

theorem mem_keys_rrfScores (dense sparse : List Hit) (x : String) :
    x ∈ (rrfScores dense sparse).map Prod.fst ↔ x ∈ (dense ++ sparse).map Hit.id := by
  unfold rrfScores
  rw [mem_keys_rrfAddList, mem_keys_rrfAddList]
  simp only [List.map_nil, List.not_mem_nil, false_or, List.map_append, List.mem_append]

theorem keys_rrfScores_perm_candidateIds (dense sparse : List Hit) :
    ((rrfScores dense sparse).map Prod.fst).Perm (candidateIds dense sparse) :=
  (List.perm_ext_iff_of_nodup (nodup_keys_rrfScores dense sparse)
    (List.nodup_dedup _)).mpr fun a => by
      rw [mem_keys_rrfScores]
      exact (List.mem_dedup).symm

theorem alistGet_map_snd (m : List (String × List ℚ)) (f : List ℚ → ℚ) (k : String) :
    alistGet (m.map fun p => (p.1, f p.2)) k = (alistGet m k).map f := by
  induction m with
  | nil => rfl
  | cons p rest ih =>
    obtain ⟨k2, l⟩ := p
    by_cases hk : k2 = k
    · simp [alistGet, hk]
    · simp [alistGet, hk, ih]

theorem keys_combinedScores (dense sparse : List Hit) :
    (combinedScores dense sparse).map Prod.fst = (rrfScores dense sparse).map Prod.fst := by
  simp only [combinedScores, List.map_map]
  rfl

theorem alistGet_combinedScores (dense sparse : List Hit) (k : String) :
    alistGet (combinedScores dense sparse) k =
      (alistGet (rrfScores dense sparse) k).map fun l => l.sum / (l.length : ℚ) :=
  alistGet_map_snd (rrfScores dense sparse) (fun l => l.sum / (l.length : ℚ)) k

theorem alistGet_of_mem_nodup (m : List (String × ℚ)) (p : String × ℚ)
    (hmem : p ∈ m) (hnd : (m.map Prod.fst).Nodup) : alistGet m p.1 = some p.2 := by
  induction m with
  | nil => simp at hmem
  | cons q rest ih =>
    simp only [List.map_cons, List.nodup_cons] at hnd
    rcases List.mem_cons.mp hmem with h | h
    · subst h
      simp [alistGet]
    · have hne : q.1 ≠ p.1 := by
        intro hc
        exact hnd.1 (hc ▸ List.mem_map_of_mem Prod.fst h)
      obtain ⟨k2, l⟩ := q
      simp only [alistGet, if_neg hne]
      exact ih h hnd.2

theorem combined_mem_score (dense sparse : List Hit)
    (hd : (dense.map Hit.id).Nodup) (hs : (sparse.map Hit.id).Nodup)
    (p : String × ℚ) (hp : p ∈ combinedScores dense sparse) :
    p.2 = claimScore dense sparse p.1 := by
  have hnd : ((combinedScores dense sparse).map Prod.fst).Nodup := by
    rw [keys_combinedScores]
    exact nodup_keys_rrfScores dense sparse
  have hget : alistGet (combinedScores dense sparse) p.1 = some p.2 :=
    alistGet_of_mem_nodup _ p hp hnd
  rw [alistGet_combinedScores, alistGet_rrfScores dense sparse p.1 hd hs] at hget
  cases h1 : rankOf dense p.1 <;> cases h2 : rankOf sparse p.1 <;>
    rw [h1, h2] at hget <;> simp only [claimScore, h1, h2] <;>
    simp only [Option.map_some', Option.map_none'] at hget
  · exact absurd hget (by simp)
  · rw [Option.some.injEq] at hget
    rw [← hget]
    simp
  · rw [Option.some.injEq] at hget
    rw [← hget]
    simp
  · rw [Option.some.injEq] at hget
    rw [← hget]
    simp
    try ring

theorem alistGet_dictInsert (m : List (String × Hit)) (hh : Hit) (k : String) :
    alistGet (dictInsert m hh) k = if k = hh.id then some hh else alistGet m k := by
  induction m with
  | nil =>
    show (if hh.id = k then some hh else alistGet [] k) =
      if k = hh.id then some hh else alistGet [] k
    by_cases hk : k = hh.id
    · rw [if_pos hk, if_pos hk.symm]
    · rw [if_neg hk, if_neg (fun hc : hh.id = k => hk hc.symm)]
  | cons q rest ih =>
    obtain ⟨k2, v⟩ := q
    by_cases h2 : k2 = hh.id
    · simp only [dictInsert, if_pos h2, alistGet]
      by_cases hk : k2 = k
      · have hkh : k = hh.id := by rw [← hk]; exact h2
        rw [if_pos hk, if_pos hkh]
      · have hknot : ¬ k = hh.id := by
          intro hc
          exact hk (by rw [h2, hc])
        rw [if_neg hk, if_neg hknot, if_neg hk]
    · simp only [dictInsert, if_neg h2, alistGet]
      by_cases hk : k2 = k
      · have hknot : ¬ k = hh.id := by rw [← hk]; exact h2
        rw [if_pos hk, if_neg hknot, if_pos hk]
      · rw [if_neg hk, ih]
        by_cases hkh : k = hh.id
        · rw [if_pos hkh, if_pos hkh]
        · rw [if_neg hkh, if_neg hkh, if_neg hk]

theorem alistGet_foldl_dictInsert_isSome (hits : List Hit) : ∀ (m : List (String × Hit))
    (k : String), (k ∈ hits.map Hit.id ∨ (alistGet m k).isSome) →
    (alistGet (hits.foldl dictInsert m) k).isSome := by
  induction hits with
  | nil =>
    intro m k h
    simpa using h
  | cons hh t ih =>
    intro m k h
    rw [List.foldl_cons]
    apply ih
    simp only [List.map_cons, List.mem_cons] at h
    rcases h with (h | h) | h
    · right
      rw [alistGet_dictInsert, if_pos h]
      rfl
    · left
      exact h
    · right
      rw [alistGet_dictInsert]
      by_cases hk : k = hh.id
      · rw [if_pos hk]
        rfl
      · rwa [if_neg hk]

theorem hitsDict_isSome (dense sparse : List Hit) (k : String)
    (h : k ∈ (dense ++ sparse).map Hit.id) : (alistGet (hitsDict dense sparse) k).isSome := by
  unfold hitsDict
  rw [List.map_append, List.mem_append] at h
  rcases h with h | h
  · exact alistGet_foldl_dictInsert_isSome sparse _ k
      (Or.inr (alistGet_foldl_dictInsert_isSome dense [] k (Or.inl h)))
  · exact alistGet_foldl_dictInsert_isSome sparse _ k (Or.inl h)

theorem sortedScores_perm (dense sparse : List Hit) :
    (sortedScores dense sparse).Perm (combinedScores dense sparse) :=
  List.mergeSort_perm (combinedScores dense sparse) _

theorem sortedScores_sorted (dense sparse : List Hit) :
    List.Pairwise (fun a b : String × ℚ => b.2 ≤ a.2) (sortedScores dense sparse) := by
  have h := @List.sorted_mergeSort (String × ℚ) (fun a b => decide (b.2 ≤ a.2))
    (fun a b c hab hbc => decide_eq_true (le_trans (of_decide_eq_true hbc) (of_decide_eq_true hab)))
    (fun a b => by
      rcases le_total a.2 b.2 with h | h <;> simp [h])
    (combinedScores dense sparse)
  exact h.imp fun hab => of_decide_eq_true hab

theorem rrfFusion_map_score (dense sparse : List Hit) (k : ℕ) :
    (rrfFusion dense sparse k).map FusedTx.rrf_score =
      ((sortedScores dense sparse).take k).map Prod.snd := by
  unfold rrfFusion
  have hall : ∀ p ∈ (sortedScores dense sparse).take k,
      (alistGet (hitsDict dense sparse) p.1).isSome := by
    intro p hp
    apply hitsDict_isSome
    have hp2 : p ∈ combinedScores dense sparse :=
      (sortedScores_perm dense sparse).mem_iff.mp (List.take_subset k _ hp)
    have hmem : p.1 ∈ (combinedScores dense sparse).map Prod.fst :=
      List.mem_map_of_mem Prod.fst hp2
    rw [keys_combinedScores] at hmem
    exact (mem_keys_rrfScores dense sparse p.1).mp hmem
  have key : ∀ l : List (String × ℚ),
      (∀ p ∈ l, (alistGet (hitsDict dense sparse) p.1).isSome) →
      (l.filterMap fun p => (alistGet (hitsDict dense sparse) p.1).map
        fun h => mkFusedTx p.1 h p.2).map FusedTx.rrf_score = l.map Prod.snd := by
    intro l
    induction l with
    | nil => intro _; rfl
    | cons p t ih =>
      intro hall2
      obtain ⟨hh, hhh⟩ := Option.isSome_iff_exists.mp (hall2 p (List.mem_cons_self p t))
      rw [List.filterMap_cons, hhh]
      simp only [Option.map_some', List.map_cons]
      rw [ih fun q hq => hall2 q (List.mem_cons_of_mem p hq)]
      rfl
  exact key _ hall

theorem rrfFusion_scores_eq_claim (dense sparse : List Hit) (k : ℕ)
    (hd : (dense.map Hit.id).Nodup) (hs : (sparse.map Hit.id).Nodup) :
    (rrfFusion dense sparse k).map FusedTx.rrf_score =
      (((candidateIds dense sparse).map (claimScore dense sparse)).mergeSort
        fun a b => decide (b ≤ a)).take k := by
  rw [rrfFusion_map_score, List.map_take]
  suffices h : (sortedScores dense sparse).map Prod.snd =
      ((candidateIds dense sparse).map (claimScore dense sparse)).mergeSort
        fun a b => decide (b ≤ a) by
    rw [h]
  haveI : IsAntisymm ℚ (fun a b : ℚ => b ≤ a) := ⟨fun _ _ h1 h2 => le_antisymm h2 h1⟩
  apply List.eq_of_perm_of_sorted (r := fun a b : ℚ => b ≤ a)
  · have p1 : ((sortedScores dense sparse).map Prod.snd).Perm
        ((combinedScores dense sparse).map Prod.snd) :=
      (sortedScores_perm dense sparse).map _
    have p2 : (combinedScores dense sparse).map Prod.snd =
        ((combinedScores dense sparse).map Prod.fst).map (claimScore dense sparse) := by
      rw [List.map_map]
      exact List.map_congr_left fun p hp => combined_mem_score dense sparse hd hs p hp
    have p3 : (((combinedScores dense sparse).map Prod.fst).map
        (claimScore dense sparse)).Perm ((candidateIds dense sparse).map
          (claimScore dense sparse)) := by
      rw [keys_combinedScores]
      exact (keys_rrfScores_perm_candidateIds dense sparse).map _
    have p4 : (((candidateIds dense sparse).map (claimScore dense sparse)).mergeSort
        fun a b => decide (b ≤ a)).Perm ((candidateIds dense sparse).map
          (claimScore dense sparse)) :=
      List.mergeSort_perm _ _
    exact ((p1.trans (p2 ▸ p3))).trans p4.symm
  · have h := sortedScores_sorted dense sparse
    exact List.pairwise_map.mpr (h.imp fun hab => hab)
  · have h := @List.sorted_mergeSort ℚ (fun a b => decide (b ≤ a))
      (fun a b c hab hbc => decide_eq_true (le_trans (of_decide_eq_true hbc)
        (of_decide_eq_true hab)))
      (fun a b => by rcases le_total a b with h | h <;> simp [h])
      ((candidateIds dense sparse).map (claimScore dense sparse))
    exact h.imp fun hab => of_decide_eq_true hab

/-! ## Claim C1: the RRF fusion contract -/

/-- Claim C1: for ranked result lists with distinct point ids, the RRF
fusion (i) assigns every returned entry the score worded by the spec —
`1/(r+60)` from a list containing the point at 1-based rank `r`,
averaged when the point is in both lists; (ii) returns exactly the first
`limit` entries of the candidate scores sorted descending; and (iii) is
sorted descending by the averaged score. -/
theorem rrf_fusion_spec (dense sparse : List Hit) (k : ℕ)
    (hd : (dense.map Hit.id).Nodup) (hs : (sparse.map Hit.id).Nodup) :
    (∀ tx ∈ rrfFusion dense sparse k, tx.rrf_score = claimScore dense sparse tx.id) ∧
    (rrfFusion dense sparse k).map FusedTx.rrf_score =
      (((candidateIds dense sparse).map (claimScore dense sparse)).mergeSort
        fun a b => decide (b ≤ a)).take k ∧
    List.Pairwise (fun a b : FusedTx => b.rrf_score ≤ a.rrf_score)
      (rrfFusion dense sparse k) := by
  refine ⟨?_, rrfFusion_scores_eq_claim dense sparse k hd hs, ?_⟩
  · intro tx htx
    unfold rrfFusion at htx
    simp only [List.mem_filterMap, Option.map_eq_some'] at htx
    obtain ⟨p, hp, hh, hget, htx2⟩ := htx
    have hp2 : p ∈ combinedScores dense sparse :=
      (sortedScores_perm dense sparse).mem_iff.mp (List.take_subset k _ hp)
    have hscore := combined_mem_score dense sparse hd hs p hp2
    rw [← htx2]
    show p.2 = claimScore dense sparse p.1
    exact hscore
  · have heq := rrfFusion_scores_eq_claim dense sparse k hd hs
    have hsorted : List.Pairwise (fun a b : ℚ => b ≤ a)
        ((((candidateIds dense sparse).map (claimScore dense sparse)).mergeSort
          fun a b => decide (b ≤ a)).take k) := by
      apply List.Pairwise.sublist (List.take_sublist k _)
      have h := @List.sorted_mergeSort ℚ (fun a b => decide (b ≤ a))
        (fun a b c hab hbc => decide_eq_true (le_trans (of_decide_eq_true hbc)
          (of_decide_eq_true hab)))
        (fun a b => by rcases le_total a b with h | h <;> simp [h])
        ((candidateIds dense sparse).map (claimScore dense sparse))
      exact h.imp fun hab => of_decide_eq_true hab
    rw [← heq] at hsorted
    exact List.pairwise_map.mp hsorted

/-- Witness for C1: two overlapping two-element result lists with
distinct ids. -/
theorem rrf_fusion_spec_witness :
    (([⟨"p1", some "2024-03-01", some 500, some "Cafe", some "Coffee"⟩,
       ⟨"p2", some "2024-03-02", some 1200, some "Taxi", some "Ride"⟩] : List Hit).map
        Hit.id).Nodup ∧
    (([⟨"p2", some "2024-03-02", some 1200, some "Taxi", some "Ride"⟩,
       ⟨"p3", some "2024-03-03", some 10, some "Food", some "Bread"⟩] : List Hit).map
        Hit.id).Nodup ∧
    ((∀ tx ∈ rrfFusion
        [⟨"p1", some "2024-03-01", some 500, some "Cafe", some "Coffee"⟩,
         ⟨"p2", some "2024-03-02", some 1200, some "Taxi", some "Ride"⟩]
        [⟨"p2", some "2024-03-02", some 1200, some "Taxi", some "Ride"⟩,
         ⟨"p3", some "2024-03-03", some 10, some "Food", some "Bread"⟩] 2,
        tx.rrf_score = claimScore
          [⟨"p1", some "2024-03-01", some 500, some "Cafe", some "Coffee"⟩,
           ⟨"p2", some "2024-03-02", some 1200, some "Taxi", some "Ride"⟩]
          [⟨"p2", some "2024-03-02", some 1200, some "Taxi", some "Ride"⟩,
           ⟨"p3", some "2024-03-03", some 10, some "Food", some "Bread"⟩] tx.id) ∧
      (rrfFusion
        [⟨"p1", some "2024-03-01", some 500, some "Cafe", some "Coffee"⟩,
         ⟨"p2", some "2024-03-02", some 1200, some "Taxi", some "Ride"⟩]
        [⟨"p2", some "2024-03-02", some 1200, some "Taxi", some "Ride"⟩,
         ⟨"p3", some "2024-03-03", some 10, some "Food", some "Bread"⟩] 2).map
          FusedTx.rrf_score =
        (((candidateIds
          [⟨"p1", some "2024-03-01", some 500, some "Cafe", some "Coffee"⟩,
           ⟨"p2", some "2024-03-02", some 1200, some "Taxi", some "Ride"⟩]
          [⟨"p2", some "2024-03-02", some 1200, some "Taxi", some "Ride"⟩,
           ⟨"p3", some "2024-03-03", some 10, some "Food", some "Bread"⟩]).map
            (claimScore
          [⟨"p1", some "2024-03-01", some 500, some "Cafe", some "Coffee"⟩,
           ⟨"p2", some "2024-03-02", some 1200, some "Taxi", some "Ride"⟩]
          [⟨"p2", some "2024-03-02", some 1200, some "Taxi", some "Ride"⟩,
           ⟨"p3", some "2024-03-03", some 10, some "Food", some "Bread"⟩])).mergeSort
            fun a b => decide (b ≤ a)).take 2 ∧
      List.Pairwise (fun a b : FusedTx => b.rrf_score ≤ a.rrf_score)
        (rrfFusion
          [⟨"p1", some "2024-03-01", some 500, some "Cafe", some "Coffee"⟩,
           ⟨"p2", some "2024-03-02", some 1200, some "Taxi", some "Ride"⟩]
          [⟨"p2", some "2024-03-02", some 1200, some "Taxi", some "Ride"⟩,
           ⟨"p3", some "2024-03-03", some 10, some "Food", some "Bread"⟩] 2)) :=
  ⟨by decide, by decide, rrf_fusion_spec _ _ 2 (by decide) (by decide)⟩

/-! ## Claim C9: rank-1-in-both dominates lower-ranked-in-both -/

/-- Claim C9: if point P is at rank 1 in both the dense and the sparse
result list, and point Q appears in both lists at ranks strictly greater
than 1, then the averaged RRF score the fusion computes for P is
strictly greater than the one it computes for Q. -/
theorem rrf_rank_one_dominates (dense sparse : List Hit) (pid qid : String) (i j : ℕ)
    (hd : (dense.map Hit.id).Nodup) (hs : (sparse.map Hit.id).Nodup)
    (hp1 : rankOf dense pid = some 1) (hp2 : rankOf sparse pid = some 1)
    (hq1 : rankOf dense qid = some i) (hq2 : rankOf sparse qid = some j)
    (hi : 1 < i) (hj : 1 < j) :
    ∃ sP sQ : ℚ, alistGet (combinedScores dense sparse) pid = some sP ∧
      alistGet (combinedScores dense sparse) qid = some sQ ∧ sQ < sP := by
  refine ⟨(1 / ((1 : ℚ) + 60) + 1 / ((1 : ℚ) + 60)) / 2,
    (1 / ((i : ℚ) + 60) + 1 / ((j : ℚ) + 60)) / 2, ?_, ?_, ?_⟩
  · rw [alistGet_combinedScores, alistGet_rrfScores dense sparse pid hd hs, hp1, hp2]
    simp
  · rw [alistGet_combinedScores, alistGet_rrfScores dense sparse qid hd hs, hq1, hq2]
    simp
  · have hic : (1 : ℚ) + 60 < (i : ℚ) + 60 := by
      have : (1 : ℚ) < (i : ℚ) := by exact_mod_cast hi
      linarith
    have hjc : (1 : ℚ) + 60 < (j : ℚ) + 60 := by
      have : (1 : ℚ) < (j : ℚ) := by exact_mod_cast hj
      linarith
    have h1 : 1 / ((i : ℚ) + 60) < 1 / ((1 : ℚ) + 60) :=
      one_div_lt_one_div_of_lt (by norm_num) hic
    have h2 : 1 / ((j : ℚ) + 60) < 1 / ((1 : ℚ) + 60) :=
      one_div_lt_one_div_of_lt (by norm_num) hjc
    linarith

/-- Witness for C9: P at rank 1 in both lists, Q at rank 2 in both. -/
theorem rrf_rank_one_dominates_witness :
    ((([⟨"p", none, none, none, none⟩, ⟨"q", none, none, none, none⟩] : List Hit).map
      Hit.id).Nodup ∧
     rankOf [⟨"p", none, none, none, none⟩, ⟨"q", none, none, none, none⟩] "p" = some 1 ∧
     rankOf [⟨"p", none, none, none, none⟩, ⟨"q", none, none, none, none⟩] "q" = some 2 ∧
     1 < 2) ∧
    ∃ sP sQ : ℚ,
      alistGet (combinedScores
        [⟨"p", none, none, none, none⟩, ⟨"q", none, none, none, none⟩]
        [⟨"p", none, none, none, none⟩, ⟨"q", none, none, none, none⟩]) "p" = some sP ∧
      alistGet (combinedScores
        [⟨"p", none, none, none, none⟩, ⟨"q", none, none, none, none⟩]
        [⟨"p", none, none, none, none⟩, ⟨"q", none, none, none, none⟩]) "q" = some sQ ∧
      sQ < sP :=
  ⟨⟨by decide, by decide, by decide, by decide⟩,
   rrf_rank_one_dominates _ _ "p" "q" 2 2 (by decide) (by decide)
     (by decide) (by decide) (by decide) (by decide) (by decide) (by decide)⟩
